import Mathlib

/-!
Verification of the stock-report aggregation engine and proximity ranking
of the cv-19-shopping-aid-server repository.

The Go source is shallowly embedded: Go structs become Lean structures,
Go `int`/`int64` become `Int`, Go `float64` becomes `ℝ`, Go slices become
lists, and the fallible validation routine returns `Except`.  Stateful
code (the per-item datastore transaction loop) is embedded by explicit
state passing over an association-list database.
-/

namespace CV19

/-- User entity (user.go).  Only the fields read by the aggregation and
ranking core are embedded: the unique identifier and the timestamp
recorded when the user is added to an observer list. -/
structure User where
  UserID : String
  TimestampSec : Int
deriving Repr, DecidableEq

/-- Store entity (store.go:39-45). -/
structure Store where
  StoreID : String
  Name : String
  Addr : String
  Lat : ℝ
  Long : ℝ

/-- StockReport (report.go:14-20): embedded in an Item, never an entity of
its own. -/
structure StockReport where
  UsersInfo : List User
  StoreInfo : Store
  TimestampSec : Int
  InStock : Bool
  SeenCnt : Int

/-- Item entity (item.go:23-26). -/
structure Item where
  Name : String
  StockReports : List StockReport

/-! ## Report merge policy (report.go:95-127, body of handleUploadToItems) -/

/-- The match test of the merge loop (report.go:96): an existing report is
matched by the store's unique identifier and the availability flag. -/
def reportMatches (store : Store) (checkInStock : Bool) (sr : StockReport) : Bool :=
  sr.StoreInfo.StoreID == store.StoreID && sr.InStock == checkInStock

/-- The observer scan of the merge loop (report.go:98-104): whether the
acting user already appears in the report's observer list. -/
def userAlreadyReported (user : User) (sr : StockReport) : Bool :=
  sr.UsersInfo.any (fun u => u.UserID == user.UserID)

/-- Mutation applied to a matched report (report.go:97-109): if the user
already reported, only the timestamp is refreshed; otherwise the seen
count is incremented, the user appended as observer, and the timestamp
refreshed. -/
def updateMatchedReport (user : User) (now : Int) (sr : StockReport) : StockReport :=
  if userAlreadyReported user sr then
    { sr with TimestampSec := now }
  else
    { sr with
        SeenCnt := sr.SeenCnt + 1
        UsersInfo := sr.UsersInfo ++ [{ UserID := user.UserID, TimestampSec := now }]
        TimestampSec := now }

/-- The fresh report constructed when no existing report matches
(report.go:116-122). -/
def newStockReport (store : Store) (user : User) (checkInStock : Bool) (now : Int) :
    StockReport :=
  { UsersInfo := [{ UserID := user.UserID, TimestampSec := now }]
    StoreInfo := store
    TimestampSec := now
    InStock := checkInStock
    SeenCnt := 1 }

/-- The merge policy over an item's report sequence (report.go:95-123):
scan for the first report matching (store identity, flag); mutate it in
place if found, otherwise append a fresh report at the end. -/
def mergeReports (store : Store) (user : User) (checkInStock : Bool) (now : Int) :
    List StockReport → List StockReport
  | [] => [newStockReport store user checkInStock now]
  | sr :: rest =>
    if reportMatches store checkInStock sr then
      updateMatchedReport user now sr :: rest
    else
      sr :: mergeReports store user checkInStock now rest

/-- Spec-side characterization used for claim C1 ("only the report's
last-updated timestamp is refreshed to the new now"): refresh the
timestamp of the first report matching the key and change nothing else. -/
def refreshFirstMatchTimestamp (store : Store) (checkInStock : Bool) (now : Int) :
    List StockReport → List StockReport
  | [] => []
  | sr :: rest =>
    if reportMatches store checkInStock sr then
      { sr with TimestampSec := now } :: rest
    else
      sr :: refreshFirstMatchTimestamp store checkInStock now rest

/-! ## Basic facts about the merge policy -/

lemma reportMatches_newStockReport (store : Store) (user : User) (f : Bool) (now : Int) :
    reportMatches store f (newStockReport store user f now) = true := by
  simp [reportMatches, newStockReport]

lemma reportMatches_updateMatchedReport (store : Store) (f : Bool) (user : User) (now : Int)
    (sr : StockReport) :
    reportMatches store f (updateMatchedReport user now sr) = reportMatches store f sr := by
  unfold updateMatchedReport
  split <;> simp [reportMatches]

lemma userAlreadyReported_updateMatchedReport (user : User) (now : Int) (sr : StockReport) :
    userAlreadyReported user (updateMatchedReport user now sr) = true := by
  unfold updateMatchedReport
  split
  · next h => simpa [userAlreadyReported] using h
  · simp [userAlreadyReported]

/-- When no existing report matches the key, the merge policy appends a
fresh report at the end and touches nothing else (report.go:116-123). -/
lemma mergeReports_of_no_match (store : Store) (user : User) (f : Bool) (now : Int)
    (rs : List StockReport) (h : ∀ sr ∈ rs, reportMatches store f sr = false) :
    mergeReports store user f now rs = rs ++ [newStockReport store user f now] := by
  induction rs with
  | nil => rfl
  | cons sr rest ih =>
    have hsr : reportMatches store f sr = false := h sr (List.mem_cons_self _ _)
    simp only [mergeReports, hsr, Bool.false_eq_true, if_false, List.cons_append,
      List.cons.injEq, true_and]
    exact ih fun x hx => h x (List.mem_cons_of_mem _ hx)

/-- When the first matching report sits at an explicit position, the merge
policy rewrites exactly that position (report.go:95-115). -/
lemma mergeReports_of_match (store : Store) (user : User) (f : Bool) (now : Int)
    (pre post : List StockReport) (sr : StockReport)
    (hpre : ∀ x ∈ pre, reportMatches store f x = false)
    (hsr : reportMatches store f sr = true) :
    mergeReports store user f now (pre ++ sr :: post)
      = pre ++ updateMatchedReport user now sr :: post := by
  induction pre with
  | nil => simp [mergeReports, hsr]
  | cons a pre ih =>
    have ha : reportMatches store f a = false := hpre a (List.mem_cons_self _ _)
    simp only [List.cons_append, mergeReports, ha, Bool.false_eq_true, if_false,
      List.cons.injEq, true_and]
    exact ih fun x hx => hpre x (List.mem_cons_of_mem _ hx)

lemma userAlreadyReported_newStockReport (store : Store) (user : User) (f : Bool) (now : Int) :
    userAlreadyReported user (newStockReport store user f now) = true := by
  simp [userAlreadyReported, newStockReport]

lemma updateMatchedReport_of_already (user : User) (now : Int) (sr : StockReport)
    (h : userAlreadyReported user sr = true) :
    updateMatchedReport user now sr = { sr with TimestampSec := now } := by
  simp [updateMatchedReport, h]

/-- Re-merging with the same store, user and flag finds the first matching
report again, sees the user already among its observers, and therefore only
refreshes that report's timestamp. -/
lemma mergeReports_twice (store : Store) (user : User) (f : Bool) (now1 now2 : Int)
    (rs : List StockReport) :
    mergeReports store user f now2 (mergeReports store user f now1 rs)
      = refreshFirstMatchTimestamp store f now2 (mergeReports store user f now1 rs) := by
  induction rs with
  | nil =>
    simp only [mergeReports, refreshFirstMatchTimestamp,
      reportMatches_newStockReport, if_true]
    rw [updateMatchedReport_of_already _ _ _ (userAlreadyReported_newStockReport store user f now1)]
  | cons sr rest ih =>
    by_cases hm : reportMatches store f sr = true
    · simp only [mergeReports, hm, if_true, refreshFirstMatchTimestamp,
        reportMatches_updateMatchedReport, if_true]
      rw [updateMatchedReport_of_already _ _ _ (userAlreadyReported_updateMatchedReport user now1 sr)]
    · have hm' : reportMatches store f sr = false := by simpa using hm
      simp only [mergeReports, hm', Bool.false_eq_true, if_false, refreshFirstMatchTimestamp,
        List.cons.injEq, true_and]
      exact ih

lemma refreshFirstMatchTimestamp_map (store : Store) (f : Bool) (now : Int)
    (rs : List StockReport) :
    (refreshFirstMatchTimestamp store f now rs).map (fun sr => (sr.SeenCnt, sr.UsersInfo))
      = rs.map (fun sr => (sr.SeenCnt, sr.UsersInfo)) := by
  induction rs with
  | nil => rfl
  | cons sr rest ih =>
    by_cases hm : reportMatches store f sr = true <;>
      simp [refreshFirstMatchTimestamp, hm, ih]

/-- C1: applying the merge policy a second time with the same store, user
and availability flag leaves every report's seen-count and observer list
unchanged and only refreshes the matched report's last-updated timestamp
to the new now; in particular, starting from a sequence with no report for
that key, two reports by the same user yield one report with seen-count 1,
exactly one observer entry for that user, and timestamp equal to the
second now. -/
theorem C1_idempotent_rereport (store : Store) (user : User) (f : Bool) (now1 now2 : Int)
    (rs : List StockReport) :
    mergeReports store user f now2 (mergeReports store user f now1 rs)
      = refreshFirstMatchTimestamp store f now2 (mergeReports store user f now1 rs)
    ∧ (mergeReports store user f now2 (mergeReports store user f now1 rs)).map
        (fun sr => (sr.SeenCnt, sr.UsersInfo))
      = (mergeReports store user f now1 rs).map (fun sr => (sr.SeenCnt, sr.UsersInfo))
    ∧ ((∀ sr ∈ rs, reportMatches store f sr = false) →
        mergeReports store user f now2 (mergeReports store user f now1 rs)
          = rs ++ [{ newStockReport store user f now1 with TimestampSec := now2 }]) := by
  refine ⟨mergeReports_twice store user f now1 now2 rs, ?_, ?_⟩
  · rw [mergeReports_twice store user f now1 now2 rs,
      refreshFirstMatchTimestamp_map]
  · intro h
    rw [mergeReports_of_no_match store user f now1 rs h,
      mergeReports_of_match store user f now2 rs [] (newStockReport store user f now1) h
        (reportMatches_newStockReport store user f now1),
      updateMatchedReport_of_already _ _ _ (userAlreadyReported_newStockReport store user f now1)]

/-- A concrete store used by the witnesses. -/
def s0 : Store :=
  { StoreID := "store-1", Name := "QFC", Addr := "123 Main St, Redmond, WA 98052"
    Lat := 0, Long := 0 }

/-- A concrete user used by the witnesses. -/
def u0 : User := { UserID := "user-a", TimestampSec := 0 }

/-- A second concrete user used by the witnesses. -/
def u1 : User := { UserID := "user-b", TimestampSec := 0 }

theorem C1_witness :
    (∀ sr ∈ ([] : List StockReport), reportMatches s0 true sr = false)
    ∧ mergeReports s0 u0 true 2 (mergeReports s0 u0 true 1 [])
        = [] ++ [{ newStockReport s0 u0 true 1 with TimestampSec := 2 }] :=
  ⟨by simp, (C1_idempotent_rereport s0 u0 true 1 2 []).2.2 (by simp)⟩

/-! ## Seen-count invariant (claim C2) -/

/-- Invariant of claim C2: no observer appears twice and the seen-count
equals the number of (distinct) observer entries. -/
def SeenCntInvariant (sr : StockReport) : Prop :=
  (sr.UsersInfo.map User.UserID).Nodup ∧ sr.SeenCnt = (sr.UsersInfo.length : Int)

lemma seenCntInvariant_newStockReport (store : Store) (user : User) (f : Bool) (now : Int) :
    SeenCntInvariant (newStockReport store user f now) := by
  simp [SeenCntInvariant, newStockReport]

lemma userAlreadyReported_eq_false_iff (user : User) (sr : StockReport) :
    userAlreadyReported user sr = false ↔ ∀ u ∈ sr.UsersInfo, u.UserID ≠ user.UserID := by
  simp [userAlreadyReported]

lemma seenCntInvariant_updateMatchedReport (user : User) (now : Int) (sr : StockReport)
    (h : SeenCntInvariant sr) :
    SeenCntInvariant (updateMatchedReport user now sr) := by
  unfold updateMatchedReport
  split
  · exact h
  · next hna =>
    have hne : ∀ u ∈ sr.UsersInfo, u.UserID ≠ user.UserID :=
      (userAlreadyReported_eq_false_iff user sr).mp (by simpa using hna)
    constructor
    · simp only [List.map_append, List.map_cons, List.map_nil, List.nodup_append]
      exact ⟨h.1, List.nodup_singleton _, by simpa [List.Disjoint] using hne⟩
    · simp only [List.length_append, List.length_cons, List.length_nil]
      push_cast
      rw [h.2]

lemma mergeReports_seenCntInvariant (store : Store) (user : User) (f : Bool) (now : Int)
    (rs : List StockReport) (hinv : ∀ sr ∈ rs, SeenCntInvariant sr) :
    ∀ sr ∈ mergeReports store user f now rs, SeenCntInvariant sr := by
  induction rs with
  | nil =>
    intro sr hsr
    simp only [mergeReports, List.mem_singleton] at hsr
    subst hsr
    exact seenCntInvariant_newStockReport store user f now
  | cons a rest ih =>
    intro sr hsr
    by_cases hm : reportMatches store f a = true
    · simp only [mergeReports, hm, if_true, List.mem_cons] at hsr
      rcases hsr with h | h
      · subst h
        exact seenCntInvariant_updateMatchedReport user now a (hinv a (List.mem_cons_self _ _))
      · exact hinv sr (List.mem_cons_of_mem _ h)
    · have hm' : reportMatches store f a = false := by simpa using hm
      simp only [mergeReports, hm', Bool.false_eq_true, if_false, List.mem_cons] at hsr
      rcases hsr with h | h
      · subst h
        exact hinv _ (List.mem_cons_self _ _)
      · exact ih (fun x hx => hinv x (List.mem_cons_of_mem _ hx)) sr h

/-- C2: the merge policy preserves the seen-count invariant; a user absent
from the first matched report's observer list is appended with seen-count
incremented by exactly 1; and two different users reporting the same fresh
(item, store, flag) key yield one report with seen-count 2 carrying both
identifiers. -/
theorem C2_seen_count_invariant (store : Store) (user : User) (f : Bool) (now : Int)
    (rs : List StockReport) (hinv : ∀ sr ∈ rs, SeenCntInvariant sr) :
    (∀ sr ∈ mergeReports store user f now rs, SeenCntInvariant sr)
    ∧ (∀ pre sr post, rs = pre ++ sr :: post →
        (∀ x ∈ pre, reportMatches store f x = false) →
        reportMatches store f sr = true →
        userAlreadyReported user sr = false →
        mergeReports store user f now rs
          = pre ++ { sr with
              SeenCnt := sr.SeenCnt + 1
              UsersInfo := sr.UsersInfo ++ [{ UserID := user.UserID, TimestampSec := now }]
              TimestampSec := now } :: post)
    ∧ (∀ u2 now2, u2.UserID ≠ user.UserID →
        (∀ sr ∈ rs, reportMatches store f sr = false) →
        mergeReports store u2 f now2 (mergeReports store user f now rs)
          = rs ++ [{ UsersInfo := [{ UserID := user.UserID, TimestampSec := now },
                                   { UserID := u2.UserID, TimestampSec := now2 }]
                     StoreInfo := store
                     TimestampSec := now2
                     InStock := f
                     SeenCnt := 2 }]) := by
  refine ⟨mergeReports_seenCntInvariant store user f now rs hinv, ?_, ?_⟩
  · intro pre sr post hrs hpre hsr hna
    subst hrs
    rw [mergeReports_of_match store user f now pre post sr hpre hsr]
    simp [updateMatchedReport, hna]
  · intro u2 now2 hne h
    rw [mergeReports_of_no_match store user f now rs h,
      mergeReports_of_match store u2 f now2 rs [] (newStockReport store user f now) h
        (reportMatches_newStockReport store user f now)]
    have hna : userAlreadyReported u2 (newStockReport store user f now) = false := by
      simp [userAlreadyReported, newStockReport]
      exact fun hc => (hne hc.symm).elim
    simp only [updateMatchedReport, hna, Bool.false_eq_true, if_false]
    simp [newStockReport]

theorem C2_witness :
    (∀ sr ∈ ([] : List StockReport), SeenCntInvariant sr)
    ∧ u1.UserID ≠ u0.UserID
    ∧ (∀ sr ∈ ([] : List StockReport), reportMatches s0 true sr = false)
    ∧ mergeReports s0 u1 true 2 (mergeReports s0 u0 true 1 [])
        = [] ++ [{ UsersInfo := [{ UserID := u0.UserID, TimestampSec := 1 },
                                 { UserID := u1.UserID, TimestampSec := 2 }]
                   StoreInfo := s0
                   TimestampSec := 2
                   InStock := true
                   SeenCnt := 2 }] :=
  ⟨by simp, by decide, by simp,
    (C2_seen_count_invariant s0 u0 true 1 [] (by simp)).2.2 u1 2 (by decide) (by simp)⟩

/-! ## Report-key uniqueness (claim C3) -/

/-- The key under which the merge policy matches a report: the store's
unique identifier together with the availability flag (report.go:96). -/
def reportKey (sr : StockReport) : String × Bool :=
  (sr.StoreInfo.StoreID, sr.InStock)

/-- Invariant of claim C3: a report sequence holds at most one report per
(store identifier, availability flag) key. -/
def KeyUnique (rs : List StockReport) : Prop :=
  (rs.map reportKey).Nodup

lemma reportKey_updateMatchedReport (user : User) (now : Int) (sr : StockReport) :
    reportKey (updateMatchedReport user now sr) = reportKey sr := by
  unfold updateMatchedReport
  split <;> rfl

lemma reportMatches_eq_false_iff (store : Store) (f : Bool) (sr : StockReport) :
    reportMatches store f sr = false ↔ reportKey sr ≠ (store.StoreID, f) := by
  simp [reportMatches, reportKey, Prod.ext_iff]

lemma mem_map_reportKey_mergeReports (store : Store) (user : User) (f : Bool) (now : Int)
    (rs : List StockReport) (k : String × Bool)
    (hk : k ∈ (mergeReports store user f now rs).map reportKey) :
    k ∈ rs.map reportKey ∨ k = (store.StoreID, f) := by
  induction rs with
  | nil =>
    right
    simpa [mergeReports, reportKey, newStockReport] using hk
  | cons sr rest ih =>
    by_cases hm : reportMatches store f sr = true
    · simp only [mergeReports, hm, if_true, List.map_cons, List.mem_cons,
        reportKey_updateMatchedReport] at hk
      rcases hk with h | h
      · exact Or.inl (by simp [h])
      · exact Or.inl (by simp [h])
    · have hm' : reportMatches store f sr = false := by simpa using hm
      simp only [mergeReports, hm', Bool.false_eq_true, if_false, List.map_cons,
        List.mem_cons] at hk
      rcases hk with h | h
      · exact Or.inl (by simp [h])
      · rcases ih h with h2 | h2
        · exact Or.inl (by simp [h2])
        · exact Or.inr h2

lemma keyUnique_mergeReports (store : Store) (user : User) (f : Bool) (now : Int)
    (rs : List StockReport) (h : KeyUnique rs) :
    KeyUnique (mergeReports store user f now rs) := by
  induction rs with
  | nil => simp [KeyUnique, mergeReports]
  | cons sr rest ih =>
    rw [KeyUnique, List.map_cons, List.nodup_cons] at h
    by_cases hm : reportMatches store f sr = true
    · rw [KeyUnique]
      simp only [mergeReports, hm, if_true, List.map_cons, List.nodup_cons,
        reportKey_updateMatchedReport]
      exact h
    · have hm' : reportMatches store f sr = false := by simpa using hm
      rw [KeyUnique]
      simp only [mergeReports, hm', Bool.false_eq_true, if_false, List.map_cons,
        List.nodup_cons]
      refine ⟨?_, ih h.2⟩
      intro hmem
      rcases mem_map_reportKey_mergeReports store user f now rest _ hmem with h2 | h2
      · exact h.1 h2
      · exact (reportMatches_eq_false_iff store f sr).mp hm' h2

lemma mergeReports_length_of_match (store : Store) (user : User) (f : Bool) (now : Int)
    (rs : List StockReport) (h : ∃ sr ∈ rs, reportMatches store f sr = true) :
    (mergeReports store user f now rs).length = rs.length := by
  induction rs with
  | nil => simp at h
  | cons sr rest ih =>
    by_cases hm : reportMatches store f sr = true
    · simp [mergeReports, hm]
    · have hm' : reportMatches store f sr = false := by simpa using hm
      have hrest : ∃ x ∈ rest, reportMatches store f x = true := by
        rcases h with ⟨x, hx, hxm⟩
        rcases List.mem_cons.mp hx with rfl | hx2
        · exact absurd hxm hm
        · exact ⟨x, hx2, hxm⟩
      simp [mergeReports, hm', ih hrest]

/-- C3: the merge policy preserves at-most-one-report-per-key; a matched
report is mutated in place (sequence length unchanged); a fresh report is
appended only when no report with the key exists; and reporting in-stock
then out-of-stock at the same store appends two distinct reports, one per
flag. -/
theorem C3_report_key_uniqueness (store : Store) (user : User) (f : Bool) (now1 now2 : Int)
    (rs : List StockReport) (h : KeyUnique rs) :
    KeyUnique (mergeReports store user f now1 rs)
    ∧ ((∃ sr ∈ rs, reportMatches store f sr = true) →
        (mergeReports store user f now1 rs).length = rs.length)
    ∧ ((∀ sr ∈ rs, reportMatches store f sr = false) →
        mergeReports store user f now1 rs = rs ++ [newStockReport store user f now1])
    ∧ ((∀ sr ∈ rs, reportMatches store true sr = false ∧ reportMatches store false sr = false) →
        mergeReports store user false now2 (mergeReports store user true now1 rs)
          = rs ++ [newStockReport store user true now1, newStockReport store user false now2]) := by
  refine ⟨keyUnique_mergeReports store user f now1 rs h,
    mergeReports_length_of_match store user f now1 rs,
    mergeReports_of_no_match store user f now1 rs, ?_⟩
  intro hboth
  rw [mergeReports_of_no_match store user true now1 rs (fun sr hsr => (hboth sr hsr).1)]
  have hall : ∀ sr ∈ rs ++ [newStockReport store user true now1],
      reportMatches store false sr = false := by
    intro sr hsr
    rcases List.mem_append.mp hsr with h1 | h1
    · exact (hboth sr h1).2
    · rcases List.mem_singleton.mp h1 with rfl
      simp [reportMatches, newStockReport]
  rw [mergeReports_of_no_match store user false now2 _ hall, List.append_assoc]
  rfl

theorem C3_witness :
    KeyUnique []
    ∧ (∀ sr ∈ ([] : List StockReport),
        reportMatches s0 true sr = false ∧ reportMatches s0 false sr = false)
    ∧ mergeReports s0 u0 false 2 (mergeReports s0 u0 true 1 [])
        = [] ++ [newStockReport s0 u0 true 1, newStockReport s0 u0 false 2] :=
  ⟨by simp [KeyUnique], by simp,
    (C3_report_key_uniqueness s0 u0 true 1 2 [] (by simp [KeyUnique])).2.2.2 (by simp)⟩

/-! ## Aggregation transaction engine (claims C4, C5; report.go:74-142) -/

/-- The item database: the datastore contents for ItemKind, keyed by item
name. -/
abbrev ItemDB := List (String × Item)

/-- The fetch inside the per-item unit of work (report.go:86-92): a missing
entity is replaced by a fresh Item with that name and an empty report
sequence. -/
def getItem (db : ItemDB) (itemName : String) : Item :=
  match db.lookup itemName with
  | some item => item
  | none => { Name := itemName, StockReports := [] }

/-- The store of the updated item (report.go:110 and 124): the new value
shadows any previous entry for the key. -/
def putItem (db : ItemDB) (itemName : String) (item : Item) : ItemDB :=
  (itemName, item) :: db

/-- One successful per-item unit of work (report.go:83-127): fetch the item
by name, run the merge policy on its report sequence, store it back. -/
def uploadItemTxn (store : Store) (user : User) (checkInStock : Bool) (now : Int)
    (db : ItemDB) (itemName : String) : ItemDB :=
  let item := getItem db itemName
  putItem db itemName
    { item with
        StockReports := mergeReports store user checkInStock now item.StockReports }

/-- The per-item step of the batch loop (report.go:81-136).  Whether a
given item's transaction fails (a storage-layer event) is supplied by the
oracle txnFail; a failed transaction leaves the database unchanged, is
tallied in errFreq, and only the first error is retained in errResult. -/
def uploadStep (txnFail : String → Option String) (store : Store) (user : User)
    (checkInStock : Bool) (now : Int) (acc : ItemDB × Nat × Option String)
    (itemName : String) : ItemDB × Nat × Option String :=
  match txnFail itemName with
  | some e =>
    (acc.1, acc.2.1 + 1,
      match acc.2.2 with
      | none => some e
      | some e0 => some e0)
  | none => (uploadItemTxn store user checkInStock now acc.1 itemName, acc.2.1, acc.2.2)

/-- handleUploadToItems (report.go:74-142): run one unit of work per item
name, never aborting the batch on a failure; afterwards report success if
nothing failed, otherwise failure carrying the failure count and the first
error's detail. -/
def handleUploadToItems (txnFail : String → Option String) (store : Store) (user : User)
    (checkInStock : Bool) (now : Int) (db : ItemDB) (itemNames : List String) :
    ItemDB × Except (Nat × String) Unit :=
  let res := itemNames.foldl (uploadStep txnFail store user checkInStock now) (db, 0, none)
  match res.2.2 with
  | some e => (res.1, .error (res.2.1, e))
  | none => (res.1, .ok ())

/-- The error retained at the end of the batch: the incoming one if any,
otherwise the first of the errors produced by the remaining items. -/
def firstRetainedErr (r : Option String) (errs : List String) : Option String :=
  match r with
  | some e => some e
  | none => errs.head?

lemma foldl_uploadStep (txnFail : String → Option String) (store : Store) (user : User)
    (f : Bool) (now : Int) (itemNames : List String) (db : ItemDB) (k : Nat)
    (r : Option String) :
    itemNames.foldl (uploadStep txnFail store user f now) (db, k, r)
      = ((itemNames.filter fun n => (txnFail n).isNone).foldl (uploadItemTxn store user f now) db,
         k + (itemNames.filterMap txnFail).length,
         firstRetainedErr r (itemNames.filterMap txnFail)) := by
  induction itemNames generalizing db k r with
  | nil => cases r <;> simp [firstRetainedErr]
  | cons n ns ih =>
    cases hn : txnFail n with
    | some e =>
      simp only [List.foldl_cons, uploadStep, hn, List.filter_cons, List.filterMap_cons,
        Option.isNone_some, Bool.false_eq_true, if_false, ih, List.length_cons,
        Prod.mk.injEq]
      refine ⟨by trivial, by omega, ?_⟩
      cases r <;> simp [firstRetainedErr]
    | none =>
      simp only [List.foldl_cons, uploadStep, hn, List.filter_cons, List.filterMap_cons,
        Option.isNone_none, if_true, ih]

/-- C4: the batch engine processes every item name (all failures are
tallied and every non-failing item's update is applied to the database,
regardless of position relative to failures), retains the first error, and
reports failure with the total failure count and the first error's detail
when at least one item failed, success when none did. -/
theorem C4_best_effort_batch (txnFail : String → Option String) (store : Store) (user : User)
    (f : Bool) (now : Int) (db : ItemDB) (itemNames : List String) :
    (handleUploadToItems txnFail store user f now db itemNames).1
      = (itemNames.filter fun n => (txnFail n).isNone).foldl (uploadItemTxn store user f now) db
    ∧ (itemNames.filterMap txnFail = [] →
        (handleUploadToItems txnFail store user f now db itemNames).2 = .ok ())
    ∧ (∀ e es, itemNames.filterMap txnFail = e :: es →
        (handleUploadToItems txnFail store user f now db itemNames).2
          = .error ((itemNames.filterMap txnFail).length, e)) := by
  unfold handleUploadToItems
  rw [foldl_uploadStep txnFail store user f now itemNames db 0 none]
  refine ⟨?_, ?_, ?_⟩
  · cases h : (itemNames.filterMap txnFail).head? <;>
      simp [firstRetainedErr, h]
  · intro h
    simp [firstRetainedErr, h]
  · intro e es h
    simp [firstRetainedErr, h]

/-- The storage-failure oracle used by the C4 witness: the transaction for
item "beans" fails, all others succeed. -/
def txnFailExample : String → Option String :=
  fun n => if n = "beans" then some "storage failure" else none

theorem C4_witness :
    ["milk", "beans", "eggs"].filterMap txnFailExample = "storage failure" :: []
    ∧ (handleUploadToItems txnFailExample s0 u0 true 5 [] ["milk", "beans", "eggs"]).2
        = .error ((["milk", "beans", "eggs"].filterMap txnFailExample).length,
                  "storage failure") :=
  ⟨by decide,
    (C4_best_effort_batch txnFailExample s0 u0 true 5 [] ["milk", "beans", "eggs"]).2.2
      "storage failure" [] (by decide)⟩

/-- C5: the code's per-item unit of work is not atomic: inside the
RunInTransaction callback it issues its reads and writes through the plain
client (client.Get at report.go:86, client.Put at report.go:110 and 124)
instead of the transaction handle, so the get and the put are two
independent non-transactional round trips.  This theorem evaluates the
resulting lost update: two writers for the same item key both read the
initial empty report sequence; the interleaving read-read-write-write
leaves the second writer's value, recording seen-count 1 with a single
observer, whereas the serialized composition the claim requires records
seen-count 2 with both observers. -/
theorem C5_lost_update_demo :
    ((mergeReports s0 u1 true 2 []).map StockReport.SeenCnt = [1]
      ∧ (mergeReports s0 u1 true 2 []).map (fun sr => sr.UsersInfo.map User.UserID)
          = [["user-b"]])
    ∧ ((mergeReports s0 u1 true 2 (mergeReports s0 u0 true 1 [])).map StockReport.SeenCnt
          = [2]
      ∧ (mergeReports s0 u1 true 2 (mergeReports s0 u0 true 1 [])).map
            (fun sr => sr.UsersInfo.map User.UserID)
          = [["user-a", "user-b"]]) := by
  decide

/-! ## Distance function and ranking engine (claims C6, C7, C8) -/

/-- Coordinate pair (loc_utils.go:12-15). -/
structure coord where
  Lat : ℝ
  Long : ℝ

/-- The read of the coordinate reference table (item.go:225, store.go:348):
a Go map access, which yields the zero-value coordinate (0, 0) when the
postal code has no entry. -/
def zipLookup (zipCodeToLatLong : List (String × coord)) (zipCode : String) : coord :=
  match zipCodeToLatLong.lookup zipCode with
  | some c => c
  | none => { Lat := 0, Long := 0 }

/-- Distance (loc_utils.go:41-61) over the reals.  The constant PI is the
literal written in the source (which is also the float64 value of math.Pi);
math.Sin, math.Cos and math.Acos are modelled by the corresponding real
functions. -/
noncomputable def Distance (lat1 lng1 lat2 lng2 : ℝ) : ℝ :=
  let PI : ℝ := 3.141592653589793
  let radlat1 : ℝ := PI * lat1 / 180
  let radlat2 : ℝ := PI * lat2 / 180
  let theta : ℝ := lng1 - lng2
  let radtheta : ℝ := PI * theta / 180
  let dist : ℝ := Real.sin radlat1 * Real.sin radlat2 +
    Real.cos radlat1 * Real.cos radlat2 * Real.cos radtheta
  let dist1 : ℝ := if dist > 1 then 1 else dist
  let dist2 : ℝ := Real.arccos dist1
  let dist3 : ℝ := dist2 * 180 / PI
  dist3 * 60 * 1.1515

/-- The reference formula of claim C8, written from the spec's words:
acos of the law-of-cosines value clamped by min to at most 1, converted to
statute miles by degrees times 60 times 1.1515, with degree-to-radian
conversion at the same constant the source uses for pi. -/
noncomputable def DistanceRefFormula (lat1 lng1 lat2 lng2 : ℝ) : ℝ :=
  let PI : ℝ := 3.141592653589793
  let r1 : ℝ := PI * lat1 / 180
  let r2 : ℝ := PI * lat2 / 180
  let rt : ℝ := PI * (lng1 - lng2) / 180
  Real.arccos (min 1 (Real.sin r1 * Real.sin r2 + Real.cos r1 * Real.cos r2 * Real.cos rt))
    * (180 / PI) * 60 * 1.1515

lemma ite_gt_one_eq_min (d : ℝ) : (if d > 1 then (1 : ℝ) else d) = min 1 d := by
  split
  · next h => exact (min_eq_left h.le).symm
  · next h => exact (min_eq_right (not_lt.mp h)).symm

/-- C8: the source's Distance equals the reference formula: spherical law
of cosines with the intermediate cosine clamped to at most 1 before the
arc-cosine, then converted to statute miles by degrees times 60 times
1.1515. -/
theorem C8_distance_formula (lat1 lng1 lat2 lng2 : ℝ) :
    Distance lat1 lng1 lat2 lng2 = DistanceRefFormula lat1 lng1 lat2 lng2 := by
  unfold Distance DistanceRefFormula
  simp only [ite_gt_one_eq_min]
  ring

/-- One row of an item-query response (item.go:124-133). -/
structure ItemInfo where
  DaysAgo : Int
  HoursAgo : Int
  StoreName : String
  StoreAddr : String
  StoreLat : ℝ
  StoreLng : ℝ
  InStock : Bool
  SeenCnt : Int

/-- The comparator handed to sort.Slice by sortItems (item.go:228-235):
strictly smaller distance first; at exactly equal distances, smaller
hours-elapsed first. -/
def itemLess (lat lng : ℝ) (a b : ItemInfo) : Prop :=
  (Distance a.StoreLat a.StoreLng lat lng = Distance b.StoreLat b.StoreLng lat lng
      ∧ a.HoursAgo < b.HoursAgo)
    ∨ (Distance a.StoreLat a.StoreLng lat lng ≠ Distance b.StoreLat b.StoreLng lat lng
      ∧ Distance a.StoreLat a.StoreLng lat lng < Distance b.StoreLat b.StoreLng lat lng)

/-- The comparator handed to sort.Slice by sortStoresByDistance
(store.go:351-354): strictly smaller distance first, nothing else. -/
def storeLess (lat lng : ℝ) (a b : Store) : Prop :=
  Distance a.Lat a.Long lat lng < Distance b.Lat b.Long lat lng

/-- The contract of Go's sort.Slice for a strict comparator: the slice is
reordered into some permutation in which no later element compares less
than an earlier one.  The sort is not stable, so every such permutation is
a possible outcome. -/
def SortSliceResult {α : Type} (less : α → α → Prop) (input output : List α) : Prop :=
  input.Perm output ∧ output.Pairwise (fun a b => ¬ less b a)

/-- sortItems (item.go:224-237), relationally: resolve the origin
coordinate from the zip code (zero coordinate when absent from the table)
and sort by the item comparator. -/
def sortItems (zipCodeToLatLong : List (String × coord)) (resp : List ItemInfo)
    (zipCode : String) (out : List ItemInfo) : Prop :=
  SortSliceResult
    (itemLess (zipLookup zipCodeToLatLong zipCode).Lat
      (zipLookup zipCodeToLatLong zipCode).Long)
    resp out

/-- sortStoresByDistance (store.go:347-359), relationally. -/
def sortStoresByDistance (zipCodeToLatLong : List (String × coord)) (stores : List Store)
    (zipCode : String) (out : List Store) : Prop :=
  SortSliceResult
    (storeLess (zipLookup zipCodeToLatLong zipCode).Lat
      (zipLookup zipCodeToLatLong zipCode).Long)
    stores out

/-- C6 (amended): item results come out as a permutation sorted by
ascending distance with exact ties broken by ascending hours-elapsed;
store results come out as a permutation sorted by ascending distance only
(stores carry no timestamp, so no recency tie-break exists for them). -/
theorem C6_ranking_order (table : List (String × coord)) (zipCode : String) :
    (∀ resp out, sortItems table resp zipCode out →
      resp.Perm out
      ∧ out.Pairwise (fun a b =>
          Distance a.StoreLat a.StoreLng (zipLookup table zipCode).Lat
              (zipLookup table zipCode).Long
            ≤ Distance b.StoreLat b.StoreLng (zipLookup table zipCode).Lat
              (zipLookup table zipCode).Long
          ∧ (Distance a.StoreLat a.StoreLng (zipLookup table zipCode).Lat
              (zipLookup table zipCode).Long
            = Distance b.StoreLat b.StoreLng (zipLookup table zipCode).Lat
              (zipLookup table zipCode).Long → a.HoursAgo ≤ b.HoursAgo)))
    ∧ (∀ stores out, sortStoresByDistance table stores zipCode out →
      stores.Perm out
      ∧ out.Pairwise (fun a b =>
          Distance a.Lat a.Long (zipLookup table zipCode).Lat (zipLookup table zipCode).Long
            ≤ Distance b.Lat b.Long (zipLookup table zipCode).Lat
              (zipLookup table zipCode).Long)) := by
  constructor
  · intro resp out h
    refine ⟨h.1, h.2.imp ?_⟩
    intro a b hnot
    rw [itemLess, not_or] at hnot
    obtain ⟨h1, h2⟩ := hnot
    constructor
    · by_cases he : Distance b.StoreLat b.StoreLng (zipLookup table zipCode).Lat
          (zipLookup table zipCode).Long
        = Distance a.StoreLat a.StoreLng (zipLookup table zipCode).Lat
          (zipLookup table zipCode).Long
      · exact le_of_eq he.symm
      · exact not_lt.mp fun hlt => h2 ⟨he, hlt⟩
    · intro he
      have : ¬ b.HoursAgo < a.HoursAgo := fun hlt => h1 ⟨he.symm, hlt⟩
      exact not_lt.mp this
  · intro stores out h
    refine ⟨h.1, h.2.imp ?_⟩
    intro a b hnot
    exact not_lt.mp hnot

/-- A concrete item row used by the C6 witness. -/
def itemInfo0 : ItemInfo :=
  { DaysAgo := 0, HoursAgo := 3, StoreName := "QFC", StoreAddr := "addr"
    StoreLat := 0, StoreLng := 0, InStock := true, SeenCnt := 1 }

theorem C6_witness :
    sortItems [] [itemInfo0] "98052" [itemInfo0]
    ∧ ([itemInfo0].Perm [itemInfo0]
      ∧ [itemInfo0].Pairwise (fun a b =>
          Distance a.StoreLat a.StoreLng (zipLookup [] "98052").Lat
              (zipLookup [] "98052").Long
            ≤ Distance b.StoreLat b.StoreLng (zipLookup [] "98052").Lat
              (zipLookup [] "98052").Long
          ∧ (Distance a.StoreLat a.StoreLng (zipLookup [] "98052").Lat
              (zipLookup [] "98052").Long
            = Distance b.StoreLat b.StoreLng (zipLookup [] "98052").Lat
              (zipLookup [] "98052").Long → a.HoursAgo ≤ b.HoursAgo))) := by
  have h : sortItems [] [itemInfo0] "98052" [itemInfo0] :=
    ⟨List.Perm.refl _, List.pairwise_singleton _ _⟩
  exact ⟨h, (C6_ranking_order [] "98052").1 [itemInfo0] [itemInfo0] h⟩

/-- A concrete store at the origin, used by the C6 counterexample. -/
def stA : Store := { StoreID := "a", Name := "A", Addr := "addr-a", Lat := 0, Long := 0 }

/-- A second, distinct concrete store at the same coordinate. -/
def stB : Store := { StoreID := "b", Name := "B", Addr := "addr-b", Lat := 0, Long := 0 }

/-- C6 counterexample: for two distinct stores at exactly equal distance
from the origin, the store ranking admits both output orders — the code's
store comparator consults distance only, and a Store carries no
observation timestamp, so no recency tie-break orders stores as the claim
asserts. -/
theorem C6_counterexample :
    sortStoresByDistance [] [stA, stB] "98052" [stA, stB]
    ∧ sortStoresByDistance [] [stA, stB] "98052" [stB, stA]
    ∧ stA ≠ stB := by
  refine ⟨⟨List.Perm.refl _, ?_⟩, ⟨List.Perm.swap stB stA [], ?_⟩, ?_⟩
  · simp [storeLess, stA, stB]
  · simp [storeLess, stA, stB]
  · intro h
    have := congrArg Store.StoreID h
    simp only [stA, stB] at this
    exact absurd this (by decide)

/-- C7: when the origin postal code has no entry in the coordinate
reference table, ranking still succeeds and behaves exactly as if the
origin coordinate were (0, 0), for items and stores alike. -/
theorem C7_reference_data_fallback (table : List (String × coord)) (zipCode : String)
    (h : table.lookup zipCode = none) :
    (∀ resp out, sortItems table resp zipCode out ↔
      SortSliceResult (itemLess 0 0) resp out)
    ∧ (∀ stores out, sortStoresByDistance table stores zipCode out ↔
      SortSliceResult (storeLess 0 0) stores out) := by
  have hc : zipLookup table zipCode = { Lat := 0, Long := 0 } := by
    simp [zipLookup, h]
  constructor
  · intro resp out
    rw [sortItems, hc]
  · intro stores out
    rw [sortStoresByDistance, hc]

/-- A one-row coordinate reference table used by the C7 witness. -/
def table0 : List (String × coord) := [("98052", { Lat := 47, Long := -122 })]

theorem C7_witness :
    List.lookup "00000" table0 = none
    ∧ (sortItems table0 [] "00000" [] ↔ SortSliceResult (itemLess 0 0) [] []) := by
  have h : List.lookup "00000" table0 = none := by rfl
  exact ⟨h, (C7_reference_data_fallback table0 "00000" h).1 [] []⟩

/-! ## Item-name normalization and upload validation (claims C9, C10) -/

/-- White-space test used by strings.TrimSpace, restricted to the ASCII
white-space characters (Go trims all Unicode white space; the claims only
compare the two normalizations, for which this restriction is inessential). -/
def goIsSpace (c : Char) : Bool :=
  c == ' ' || c == '\t' || c == '\n' || c == '\x0b' || c == '\x0c' || c == '\r'

/-- strings.TrimSpace: drop leading and trailing white space. -/
def stringsTrimSpace (s : String) : String :=
  { data := ((s.data.dropWhile goIsSpace).reverse.dropWhile goIsSpace).reverse }

/-- strings.ToLower, on the ASCII range exercised here. -/
def stringsToLower (s : String) : String :=
  { data := s.data.map Char.toLower }

/-- The upload-side normalization of an item name (report.go:162 and 173):
lower-case the trimmed name. -/
def normalizeUploadItemName (s : String) : String :=
  stringsToLower (stringsTrimSpace s)

/-- The query-side normalization of an item name (item.go:188):
lower-casing only — the query path performs no trimming. -/
def normalizeQueryItemName (s : String) : String :=
  stringsToLower s

/-- C10 counterexample: the two normalizations disagree on an input with
leading white space, so the same raw string addresses different item keys
in the upload and query operations. -/
theorem C10_counterexample :
    normalizeQueryItemName " Milk" ≠ normalizeUploadItemName " Milk" := by
  decide

/-- C10 (amended): the query-side normalization lower-cases but does not
trim; it coincides with the upload-side normalization exactly on inputs
that carry no surrounding white space. -/
theorem C10_name_normalization (s : String) (h : stringsTrimSpace s = s) :
    normalizeQueryItemName s = normalizeUploadItemName s := by
  unfold normalizeQueryItemName normalizeUploadItemName
  rw [h]

theorem C10_witness :
    stringsTrimSpace "Milk" = "Milk"
    ∧ normalizeQueryItemName "Milk" = normalizeUploadItemName "Milk" :=
  ⟨by decide, C10_name_normalization "Milk" (by decide)⟩

/-- Upload request (report.go:26-31). -/
structure UploadReportReq where
  UserID : String
  StoreID : String
  InStock : List String
  OutStock : List String
deriving Repr, DecidableEq

/-- The duplicate-pruning loop of cleanAndValidateUploadReportReq
(report.go:158-182) over one list: normalize each name, reject an empty
normalized name, skip names already in the seen set (which is shared
across both lists), and keep first occurrences in order.  Returns the
extended seen set and the pruned list.  The Go error carries the offending
index; the claims do not inspect the error detail, so it is a fixed
message here. -/
def pruneItems (seen : List String) : List String → Except String (List String × List String)
  | [] => .ok (seen, [])
  | x :: xs =>
    let item := normalizeUploadItemName x
    if item = "" then .error "item is empty"
    else if item ∈ seen then pruneItems seen xs
    else
      match pruneItems (item :: seen) xs with
      | .error e => .error e
      | .ok (seen2, rest) => .ok (seen2, item :: rest)

/-- cleanAndValidateUploadReportReq (report.go:144-186): reject missing
identifiers and an entirely empty batch, then prune duplicates, biasing a
name present in both lists toward the in-stock list (whose loop runs
first and populates the shared seen set). -/
def cleanAndValidateUploadReportReq (req : UploadReportReq) : Except String UploadReportReq :=
  if req.UserID = "" then .error "missing user id"
  else if req.StoreID = "" then .error "missing store id"
  else if req.InStock.isEmpty && req.OutStock.isEmpty then
    .error "in-stock and out-of-stock items are both empty"
  else
    match pruneItems [] req.InStock with
    | .error e => .error e
    | .ok (seen, inStock) =>
      match pruneItems seen req.OutStock with
      | .error e => .error e
      | .ok (_, outStock) => .ok { req with InStock := inStock, OutStock := outStock }

lemma pruneItems_ok (l : List String) : ∀ seen seen2 out,
    pruneItems seen l = .ok (seen2, out) →
    out.Nodup
    ∧ (∀ x ∈ out, x ∉ seen)
    ∧ out.Sublist (l.map normalizeUploadItemName)
    ∧ (∀ x, x ∈ out ↔ (x ∈ l.map normalizeUploadItemName ∧ x ∉ seen))
    ∧ (∀ x, x ∈ seen2 ↔ (x ∈ seen ∨ x ∈ l.map normalizeUploadItemName)) := by
  induction l with
  | nil =>
    intro seen seen2 out h
    simp only [pruneItems, Except.ok.injEq, Prod.mk.injEq] at h
    obtain ⟨rfl, rfl⟩ := h
    simp
  | cons x xs ih =>
    intro seen seen2 out h
    simp only [pruneItems] at h
    by_cases hempty : normalizeUploadItemName x = ""
    · simp [hempty] at h
    · rw [if_neg hempty] at h
      by_cases hin : normalizeUploadItemName x ∈ seen
      · rw [if_pos hin] at h
        obtain ⟨hnd, hns, hsub, hmem, hseen⟩ := ih seen seen2 out h
        refine ⟨hnd, hns, hsub.cons _, ?_, ?_⟩
        · intro y
          rw [hmem y]
          simp only [List.map_cons, List.mem_cons]
          constructor
          · rintro ⟨hy, hys⟩
            exact ⟨Or.inr hy, hys⟩
          · rintro ⟨hy | hy, hys⟩
            · exact absurd (hy ▸ hin) hys
            · exact ⟨hy, hys⟩
        · intro y
          rw [hseen y]
          simp only [List.map_cons, List.mem_cons]
          constructor
          · rintro (hy | hy)
            · exact Or.inl hy
            · exact Or.inr (Or.inr hy)
          · rintro (hy | hy | hy)
            · exact Or.inl hy
            · exact Or.inl (hy ▸ hin)
            · exact Or.inr hy
      · rw [if_neg hin] at h
        cases hrec : pruneItems (normalizeUploadItemName x :: seen) xs with
        | error e => rw [hrec] at h; simp at h
        | ok p =>
          obtain ⟨seen3, rest⟩ := p
          rw [hrec] at h
          simp only [Except.ok.injEq, Prod.mk.injEq] at h
          obtain ⟨rfl, rfl⟩ := h
          obtain ⟨hnd, hns, hsub, hmem, hseen⟩ := ih _ _ _ hrec
          refine ⟨?_, ?_, ?_, ?_, ?_⟩
          · rw [List.nodup_cons]
            refine ⟨fun hc => ?_, hnd⟩
            exact hns _ hc (List.mem_cons_self _ _)
          · intro y hy
            rcases List.mem_cons.mp hy with rfl | hy2
            · exact hin
            · exact fun hc => hns y hy2 (List.mem_cons_of_mem _ hc)
          · simpa only [List.map_cons] using hsub.cons₂ _
          · intro y
            simp only [List.mem_cons, List.map_cons]
            constructor
            · rintro (rfl | hy)
              · exact ⟨Or.inl rfl, hin⟩
              · obtain ⟨h1, h2⟩ := (hmem y).mp hy
                exact ⟨Or.inr h1, fun hc => h2 (List.mem_cons_of_mem _ hc)⟩
            · rintro ⟨hy | hy, hys⟩
              · exact Or.inl hy
              · by_cases hyx : y = normalizeUploadItemName x
                · exact Or.inl hyx
                · refine Or.inr ((hmem y).mpr ⟨hy, ?_⟩)
                  intro hc
                  rcases List.mem_cons.mp hc with h3 | h3
                  · exact hyx h3
                  · exact hys h3
          · intro y
            rw [hseen y]
            simp only [List.mem_cons, List.map_cons]
            tauto

/-- C9: a request that passes upload validation has duplicate-free
normalized item lists, no name shared between the two lists, names present
in both original lists kept only on the in-stock side, and first-occurrence
order preserved within each list. -/
theorem C9_cross_list_dedup (req req2 : UploadReportReq)
    (h : cleanAndValidateUploadReportReq req = .ok req2) :
    req2.InStock.Nodup
    ∧ req2.OutStock.Nodup
    ∧ (∀ x ∈ req2.InStock, x ∉ req2.OutStock)
    ∧ req2.InStock.Sublist (req.InStock.map normalizeUploadItemName)
    ∧ req2.OutStock.Sublist (req.OutStock.map normalizeUploadItemName)
    ∧ (∀ x, x ∈ req2.InStock ↔ x ∈ req.InStock.map normalizeUploadItemName)
    ∧ (∀ x, x ∈ req2.OutStock ↔
        (x ∈ req.OutStock.map normalizeUploadItemName
          ∧ x ∉ req.InStock.map normalizeUploadItemName)) := by
  unfold cleanAndValidateUploadReportReq at h
  split_ifs at h
  cases hp1 : pruneItems [] req.InStock with
  | error e => rw [hp1] at h; simp at h
  | ok p1 =>
    obtain ⟨seen, inS⟩ := p1
    rw [hp1] at h
    dsimp only at h
    cases hp2 : pruneItems seen req.OutStock with
    | error e => rw [hp2] at h; simp at h
    | ok p2 =>
      obtain ⟨seen2, outS⟩ := p2
      rw [hp2] at h
      dsimp only at h
      simp only [Except.ok.injEq] at h
      obtain ⟨hnd1, _, hsub1, hmem1, hseen1⟩ := pruneItems_ok req.InStock [] seen inS hp1
      obtain ⟨hnd2, hns2, hsub2, hmem2, _⟩ := pruneItems_ok req.OutStock seen seen2 outS hp2
      have hreq2in : req2.InStock = inS := by rw [← h]
      have hreq2out : req2.OutStock = outS := by rw [← h]
      rw [hreq2in, hreq2out]
      have hseen1' : ∀ x, x ∈ seen ↔ x ∈ req.InStock.map normalizeUploadItemName := by
        intro x
        rw [hseen1 x]
        simp
      have hmem1' : ∀ x, x ∈ inS ↔ x ∈ req.InStock.map normalizeUploadItemName := by
        intro x
        rw [hmem1 x]
        simp
      have hmem2' : ∀ x, x ∈ outS ↔
          (x ∈ req.OutStock.map normalizeUploadItemName
            ∧ x ∉ req.InStock.map normalizeUploadItemName) := by
        intro x
        rw [hmem2 x, ← hseen1' x]
      refine ⟨hnd1, hnd2, ?_, hsub1, hsub2, hmem1', hmem2'⟩
      intro x hx hx2
      exact ((hmem2' x).mp hx2).2 ((hmem1' x).mp hx)

/-- A concrete upload request used by the C9 witness: "milk" appears twice
in the in-stock list (differing in case and white space) and once more in
the out-of-stock list. -/
def reqExample : UploadReportReq :=
  { UserID := "user-a", StoreID := "store-1"
    InStock := [" Milk", "milk", "Eggs"], OutStock := ["MILK ", "bread"] }

/-- The cleaned form of reqExample. -/
def reqExampleCleaned : UploadReportReq :=
  { UserID := "user-a", StoreID := "store-1"
    InStock := ["milk", "eggs"], OutStock := ["bread"] }

theorem C9_witness :
    cleanAndValidateUploadReportReq reqExample = .ok reqExampleCleaned
    ∧ reqExampleCleaned.InStock.Nodup
    ∧ reqExampleCleaned.OutStock.Nodup
    ∧ (∀ x ∈ reqExampleCleaned.InStock, x ∉ reqExampleCleaned.OutStock)
    ∧ reqExampleCleaned.InStock.Sublist (reqExample.InStock.map normalizeUploadItemName)
    ∧ reqExampleCleaned.OutStock.Sublist (reqExample.OutStock.map normalizeUploadItemName)
    ∧ (∀ x, x ∈ reqExampleCleaned.InStock ↔
        x ∈ reqExample.InStock.map normalizeUploadItemName)
    ∧ (∀ x, x ∈ reqExampleCleaned.OutStock ↔
        (x ∈ reqExample.OutStock.map normalizeUploadItemName
          ∧ x ∉ reqExample.InStock.map normalizeUploadItemName)) :=
  ⟨rfl, C9_cross_list_dedup reqExample reqExampleCleaned rfl⟩

end CV19
